import Mathlib

/-!
Verification development for the shl-assessment catalog crawler and
recommendation service.  The definitions below are shallow embeddings of
the Python sources:

* src/main.py        — clean_html, find_product_links_from_catalog,
                       parse_product_page (short-description extraction),
                       is_prepackaged, and the crawl driver;
* src/recommend_api_fixed.py — normalize_yes_no, normalize_test_types,
                       build_records and the /recommend handler.

Machine strings are modelled by Lean String; a few Python library
primitives (str.strip, str.lower, substring search) are re-implemented
over the character list so that every definition is executable and
kernel-reducible.
-/

/-- Model of Python str.strip(): drop leading and trailing whitespace. -/
def pyStrip (s : String) : String :=
  String.mk (((s.data.dropWhile Char.isWhitespace).reverse.dropWhile Char.isWhitespace).reverse)

/-- Model of Python str.lower(): character-wise lower-casing. -/
def lowerStr (s : String) : String :=
  String.mk (s.data.map Char.toLower)

/-- Bool test that the string pat occurs as a contiguous substring of hay,
the model of the Python "pat in hay" operator on strings. -/
def strContainsAux (needle : List Char) : List Char → Bool
  | [] => needle.isEmpty
  | c :: rest => needle.isPrefixOf (c :: rest) || strContainsAux needle rest

def containsStr (hay pat : String) : Bool :=
  strContainsAux pat.data hay.data

/-- Model of Python str.startswith. -/
def startsWithStr (s pre : String) : Bool :=
  pre.data.isPrefixOf s.data

/-- Model of Python str.endswith. -/
def endsWithStr (s suf : String) : Bool :=
  suf.data.reverse.isPrefixOf s.data.reverse

/-- Prefix of the string before the first '#', the model of
Python link.split("#")[0] (src/main.py line 222). -/
def stripFrag (s : String) : String :=
  String.mk (s.data.takeWhile (fun c => !(c == '#')))

/-- Model of Python s.rstrip("/"): remove every trailing '/'. -/
def rstripSlash (s : String) : String :=
  String.mk ((s.data.reverse.dropWhile (fun c => c == '/')).reverse)

/-- URL canonicalization used by the crawl loop (src/main.py line 222):
strip the fragment, then strip trailing slashes. -/
def canonicalize (link : String) : String :=
  rstripSlash (stripFrag link)

/-- Split a character list at the first occurrence of "://", returning the
characters before it (the scheme) and after it; none when absent. -/
def splitSchemeAux (acc : List Char) : List Char → Option (List Char × List Char)
  | ':' :: '/' :: '/' :: rest => some (acc.reverse, rest)
  | c :: rest => splitSchemeAux (c :: acc) rest
  | [] => none

def splitScheme (u : String) : Option (List Char × List Char) :=
  splitSchemeAux [] u.data

/-- The netloc (host) component of an absolute URL, the model of
urllib.parse.urlparse(u).netloc for the scheme-qualified URLs the crawl
produces; a string without "://" has an empty netloc. -/
def netlocOf (u : String) : String :=
  match splitScheme u with
  | some (_, rest) => String.mk (rest.takeWhile (fun c => !(c == '/' || c == '?' || c == '#')))
  | none => ""

/-- The scheme and host part "scheme://host" of an absolute URL, used to
resolve root-relative hrefs. -/
def schemeHostOf (u : String) : String :=
  match splitScheme u with
  | some (scheme, rest) =>
      String.mk scheme ++ "://" ++ String.mk (rest.takeWhile (fun c => !(c == '/' || c == '?' || c == '#')))
  | none => ""

/-- The base URL up to and including its last '/', used to resolve
plain relative hrefs. -/
def dirOf (u : String) : String :=
  let rev := u.data.reverse.dropWhile (fun c => !(c == '/'))
  if rev.isEmpty then u ++ "/" else String.mk rev.reverse

/-- Modelled from urllib.parse.urljoin, restricted to the href shapes the
crawler meets: scheme-qualified absolute URLs, protocol-relative URLs,
root-relative paths and plain relative paths (query-only and
fragment-only hrefs are resolved against the base directory, a harmless
simplification since no claim exercises them). -/
def urljoin (base href : String) : String :=
  if href = "" then base
  else if containsStr href "://" then href
  else if startsWithStr href "//" then
    (match splitScheme base with
     | some (scheme, _) => String.mk scheme ++ ":" ++ href
     | none => href)
  else if startsWithStr href "/" then schemeHostOf base ++ href
  else dirOf base ++ href

/-- Detects "page=<digit>" or "page/<digit>" starting at the head of the
character list. -/
def pageNumAt : List Char → Bool
  | 'p' :: 'a' :: 'g' :: 'e' :: c :: d :: _ => (c == '=' || c == '/') && d.isDigit
  | _ => false

def hasPageNumAux : List Char → Bool
  | [] => false
  | c :: rest => pageNumAt (c :: rest) || hasPageNumAux rest

/-- Model of re.search(r"page=\d+|page/\d+", u, re.I): the lower-cased URL
contains "page=" or "page/" immediately followed by a digit. -/
def hasPageNum (u : String) : Bool :=
  hasPageNumAux (lowerStr u).data

/-- Model of re.search(r"/page/|/tag/|/category/|/blog/", u, re.I)
(src/main.py line 232): the listing/pagination heuristic. -/
def listingPattern (u : String) : Bool :=
  let l := lowerStr u
  containsStr l "/page/" || containsStr l "/tag/" || containsStr l "/category/" || containsStr l "/blog/"

/-- The product-candidate test of find_product_links_from_catalog
(src/main.py line 111): the raw href contains "/product", "/solutions/"
or "/products/" case-insensitively. -/
def productHrefPattern (href : String) : Bool :=
  let l := lowerStr href
  containsStr l "/product" || containsStr l "/solutions/" || containsStr l "/products/"

/-- The secondary listing-discovery test of the crawl loop
(src/main.py line 287): the absolute URL contains "/solutions/" or
"/products/" or matches the paging pattern. -/
def secondaryPattern (full : String) : Bool :=
  let l := lowerStr full
  containsStr l "/solutions/" || containsStr l "/products/" || hasPageNum full

/-- The same-origin filter of the crawl loop (src/main.py lines 226-228):
a URL passes when its netloc is empty or contains "shl.com". -/
def sameOriginOk (u : String) : Bool :=
  netlocOf u == "" || containsStr (netlocOf u) "shl.com"

/-- Embeds is_prepackaged (src/main.py lines 185-188). -/
def is_prepackaged (text : String) : Bool :=
  if text = "" then false
  else
    let l := lowerStr text
    containsStr l "pre-packaged" || containsStr l "pre packaged" || containsStr l "prepackaged"

/-- Abstraction of a fetched page: its anchor hrefs in document order,
and the fields parse_product_page extracts from its sanitized markup. -/
structure Doc where
  anchors : List String
  name : String
  category : String
  shortDesc : String
deriving DecidableEq

/-- A persisted catalog record: the fields of parse_product_page's result
that the crawl driver inspects (src/main.py lines 176-183 and 250). -/
structure Rec where
  url : String
  name : String
  category : String
  shortDesc : String
deriving DecidableEq

/-- A static site: an association list from fetchable URL to page content;
URLs outside the list make fetch raise (modelled as none). -/
abbrev Site := List (String × Doc)

def fetchSite (site : Site) (u : String) : Option Doc :=
  (site.find? (fun p => p.1 == u)).map (·.2)

/-- The crawl driver's state (src/main.py lines 190-292): seen product
URLs, the FIFO frontier, processed listing pages, the durable JSONL sink,
this run's discovered records, plus ghost trace fields recording every
fetch call and every product-page fetch call, and the early-return flag
of the max_products cap. -/
structure CrawlState where
  seen : List String
  queued : List String
  processed : List String
  sink : List Rec
  discovered : List Rec
  fetched : List String
  productFetched : List String
  stopped : Bool
deriving DecidableEq

/-- The combined text the pre-packaged filter checks (src/main.py
line 250): " ".join([assessment_name, category, short_description]). -/
def combinedText (name category shortDesc : String) : String :=
  name ++ " " ++ category ++ " " ++ shortDesc

/-- Embeds find_product_links_from_catalog (src/main.py lines 100-114)
on the page's anchor hrefs: skip mailto:/tel:, keep hrefs matching the
product heuristic, resolve against the base URL.  The Python set of
links is modelled as an order-preserving deduplicated list. -/
def find_product_links_from_catalog (anchors : List String) (baseUrl : String) : List String :=
  anchors.foldl
    (fun acc a =>
      let href := pyStrip a
      if startsWithStr href "mailto:" || startsWithStr href "tel:" then acc
      else if productHrefPattern href then
        let full := urljoin baseUrl href
        if full ∈ acc then acc else acc ++ [full]
      else acc)
    []

/-- One iteration of the product-link loop of the crawl driver
(src/main.py lines 220-275) on a single candidate link. -/
def processLink (site : Site) (maxProducts : Nat) (st : CrawlState) (link : String) : CrawlState :=
  if st.stopped then st
  else
    let normalized := canonicalize link
    if endsWithStr (lowerStr normalized) ".pdf" then st
    else if !(sameOriginOk normalized) then st
    else if normalized ∈ st.seen then st
    else if listingPattern normalized then
      if normalized ∉ st.queued ∧ normalized ∉ st.processed then
        { st with queued := st.queued ++ [normalized] }
      else st
    else
      let st := { st with fetched := st.fetched ++ [normalized],
                          productFetched := st.productFetched ++ [normalized] }
      match fetchSite site normalized with
      | none => st
      | some doc =>
        if is_prepackaged (combinedText doc.name doc.category doc.shortDesc) then
          { st with seen := st.seen ++ [normalized] }
        else
          let r : Rec := ⟨normalized, doc.name, doc.category, doc.shortDesc⟩
          let st := { st with sink := st.sink ++ [r],
                              seen := st.seen ++ [normalized],
                              discovered := st.discovered ++ [r] }
          if maxProducts ≠ 0 ∧ maxProducts ≤ st.discovered.length then
            { st with stopped := true }
          else st

/-- One iteration of the secondary listing-discovery pass
(src/main.py lines 279-288) on a single raw anchor href. -/
def secondaryLink (pageUrl : String) (st : CrawlState) (a : String) : CrawlState :=
  let href := pyStrip a
  if startsWithStr href "mailto:" || startsWithStr href "tel:" then st
  else
    let full := urljoin pageUrl href
    if full ∈ st.processed ∨ full ∈ st.queued then st
    else if secondaryPattern full then { st with queued := st.queued ++ [full] }
    else st

/-- Processing of one successfully fetched listing page: the product-link
loop followed (unless the cap fired) by the secondary discovery pass. -/
def processPage (site : Site) (maxProducts : Nat) (pageUrl : String) (doc : Doc)
    (st : CrawlState) : CrawlState :=
  let links := find_product_links_from_catalog doc.anchors pageUrl
  let st := links.foldl (processLink site maxProducts) st
  if st.stopped then st
  else doc.anchors.foldl (secondaryLink pageUrl) st

/-- The crawl driver's main loop (src/main.py lines 208-292), fuelled:
each unit of fuel pops at most one frontier URL.  A fetch failure leaves
the page unprocessed; a success records it as processed and runs
processPage. -/
def crawlLoop (site : Site) (maxProducts : Nat) : Nat → CrawlState → CrawlState
  | 0, st => st
  | Nat.succ fuel, st =>
    if st.stopped then st
    else
      match st.queued with
      | [] => st
      | pageUrl :: rest =>
        let st1 := { st with queued := rest }
        if pageUrl ∈ st1.processed then crawlLoop site maxProducts fuel st1
        else
          let st2 := { st1 with fetched := st1.fetched ++ [pageUrl] }
          match fetchSite site pageUrl with
          | none => crawlLoop site maxProducts fuel st2
          | some doc =>
            let st3 := { st2 with processed := st2.processed ++ [pageUrl] }
            crawlLoop site maxProducts fuel (processPage site maxProducts pageUrl doc st3)

/-- The crawl's initial state (src/main.py lines 190-206): the seed URL
queued, and the seen set preloaded from the url field of every record
already in the durable store. -/
def initState (store : List Rec) (startUrl : String) : CrawlState :=
  { seen := store.map (·.url), queued := [startUrl], processed := [],
    sink := store, discovered := [], fetched := [], productFetched := [],
    stopped := false }

/-! ### HTML tree model

BeautifulSoup's parsed document is modelled as a tree of element and
text nodes; attributes are name/value pairs.  Multi-valued class
attributes are modelled as the single space-joined attribute string; the
regex patterns below are anchor-free and space-free, so substring search
on the joined string coincides with BeautifulSoup's per-token matching. -/

mutual
inductive Html where
  | text : String → Html
  | elem : String → List (String × String) → Forest → Html
deriving DecidableEq
inductive Forest where
  | nil : Forest
  | cons : Html → Forest → Forest
deriving DecidableEq
end

def appendF : Forest → Forest → Forest
  | .nil, g => g
  | .cons h t, g => .cons h (appendF t g)

/-- The tag names clean_html removes outright (src/main.py line 16). -/
def badTags : List String := ["script", "noscript", "iframe", "style", "link"]

/-- The javascript: href test of clean_html (src/main.py line 22):
str(value).strip().lower().startswith("javascript:"). -/
def jsHref (v : String) : Bool :=
  startsWithStr (lowerStr (pyStrip v)) "javascript:"

/-- Attribute cleaning of clean_html (src/main.py lines 20-28): drop an
href whose value passes the javascript: test, then drop every attribute
whose lower-cased name starts with "on". -/
def cleanAttrs (attrs : List (String × String)) : List (String × String) :=
  (attrs.filter (fun p => !(p.1 == "href" && jsHref p.2))).filter
    (fun p => !(startsWithStr (lowerStr p.1) "on"))

mutual
/-- Embeds clean_html (src/main.py lines 11-30) on a single node:
elements with a bad tag are decomposed (removed with their subtree),
the rest keep their cleaned attributes and cleaned children. -/
def cleanNode : Html → Forest
  | .text s => .cons (.text s) .nil
  | .elem t a cs =>
      if t ∈ badTags then .nil
      else .cons (.elem t (cleanAttrs a) (cleanForest cs)) .nil
def cleanForest : Forest → Forest
  | .nil => .nil
  | .cons h rest => appendF (cleanNode h) (cleanForest rest)
end

/-- Embeds clean_html on a whole document. -/
def clean_html (doc : Forest) : Forest := cleanForest doc

mutual
/-- True when no element of the node's tree has a tag in badTags, no
attribute name lower-cases to an "on" prefix, and no href value passes
the javascript: test. -/
def sanitizedNode : Html → Bool
  | .text _ => true
  | .elem t a cs =>
      !(t ∈ badTags : Bool) &&
      a.all (fun p => !(p.1 == "href" && jsHref p.2) && !(startsWithStr (lowerStr p.1) "on")) &&
      sanitizedForest cs
def sanitizedForest : Forest → Bool
  | .nil => true
  | .cons h rest => sanitizedNode h && sanitizedForest rest
end

mutual
/-- First element (document order, depth-first) satisfying p, the model
of BeautifulSoup soup.find. -/
def findNode (p : String → List (String × String) → Bool) : Html → Option Html
  | .text _ => none
  | .elem t a cs => if p t a then some (.elem t a cs) else findForest p cs
def findForest (p : String → List (String × String) → Bool) : Forest → Option Html
  | .nil => none
  | .cons h rest =>
      match findNode p h with
      | some r => some r
      | none => findForest p rest
end

/-- Attribute lookup on an element's attribute list. -/
def getAttr (attrs : List (String × String)) (k : String) : Option String :=
  (attrs.find? (fun p => p.1 == k)).map (·.2)

mutual
/-- The descendant text fragments of a node in document order. -/
def textsNode : Html → List String
  | .text s => [s]
  | .elem _ _ cs => textsForest cs
def textsForest : Forest → List String
  | .nil => []
  | .cons h rest => textsNode h ++ textsForest rest
end

/-- Model of BeautifulSoup el.get_text(separator=" ", strip=True): join
the stripped non-empty text fragments with single spaces. -/
def getTextOf (h : Html) : String :=
  String.intercalate " " (((textsNode h).map pyStrip).filter (fun s => !(s == "")))

/-- The case-insensitive class/id pattern (product|description|intro|summary)
of parse_product_page (src/main.py lines 133-137), as substring search. -/
def descPattern (v : String) : Bool :=
  let l := lowerStr v
  containsStr l "product" || containsStr l "description" || containsStr l "intro" || containsStr l "summary"

/-- soup.find("meta", attrs with name="description") followed by the
truthy-content check and strip (src/main.py lines 128-130). -/
def metaDescription (doc : Forest) : String :=
  match findForest (fun t a => t == "meta" && getAttr a "name" == some "description") doc with
  | none => ""
  | some md =>
      match md with
      | .elem _ a _ =>
          (match getAttr a "content" with
           | some c => if c == "" then "" else pyStrip c
           | none => "")
      | .text _ => ""

/-- The first div whose class matches the description pattern. -/
def selDivClass (doc : Forest) : Option Html :=
  findForest (fun t a => t == "div" &&
    (match getAttr a "class" with | some v => descPattern v | none => false)) doc

/-- The first section whose class matches the description pattern. -/
def selSectionClass (doc : Forest) : Option Html :=
  findForest (fun t a => t == "section" &&
    (match getAttr a "class" with | some v => descPattern v | none => false)) doc

/-- The first div whose id matches the description pattern. -/
def selDivId (doc : Forest) : Option Html :=
  findForest (fun t a => t == "div" &&
    (match getAttr a "id" with | some v => descPattern v | none => false)) doc

/-- The description cascade of parse_product_page (src/main.py lines
126-144): start from the meta description, then for each of the three
selectors in order replace it by the found element's text when that text
is strictly longer. -/
def shortDescriptionOf (doc : Forest) : String :=
  let d0 := metaDescription doc
  let d1 := match selDivClass doc with
            | some el => let t := getTextOf el; if d0.length < t.length then t else d0
            | none => d0
  let d2 := match selSectionClass doc with
            | some el => let t := getTextOf el; if d1.length < t.length then t else d1
            | none => d1
  match selDivId doc with
  | some el => let t := getTextOf el; if d2.length < t.length then t else d2
  | none => d2

/-- The four description candidates in precedence order: meta content
first, then the three selector results (an absent selector match
contributes the empty string, which never wins). -/
def descCandidates (doc : Forest) : List String :=
  [metaDescription doc,
   (selDivClass doc).elim "" getTextOf,
   (selSectionClass doc).elim "" getTextOf,
   (selDivId doc).elim "" getTextOf]

/-- One step of the longest-wins cascade: keep d unless t is strictly
longer. -/
def pickLonger (d t : String) : String :=
  if d.length < t.length then t else d

/-! ### Recommendation service model (src/recommend_api_fixed.py)

The CSV rows, the record normalization of build_records, and the
/recommend handler.  TF-IDF similarity scores are abstracted as an
arbitrary integer-valued score function (the floating-point scores only
determine the ranking order, which no claim depends on); np.argsort is
modelled as a deterministic insertion sort on indices by descending
score. -/

/-- A CSV row after pandas fillna(""): a field is none when the column is
absent from the file, some v (possibly "") when present. -/
structure Row where
  url : Option String
  name : Option String
  short_description : Option String
  full_text : Option String
  duration_minutes : Option String
  duration : Option String
  adaptive_support : Option String
  adaptive : Option String
  remote_support : Option String
  remote : Option String
  test_type : Option String
  test_types : Option String
  category : Option String
deriving DecidableEq

/-- A record served by /recommend. -/
structure ApiRec where
  url : String
  name : String
  adaptive_support : String
  description : String
  duration : Int
  remote_support : String
  test_type : List String
deriving DecidableEq

/-- Embeds normalize_yes_no (src/recommend_api_fixed.py lines 45-58). -/
def normalize_yes_no (val : Option String) : String :=
  match val with
  | none => "No"
  | some v =>
    let s := lowerStr (pyStrip v)
    if s == "" || s == "n/a" || s == "none" || s == "no" || s == "false" || s == "0" then "No"
    else if containsStr s "yes" || containsStr s "true" || containsStr s "available" ||
            containsStr s "supported" || containsStr s "y" || containsStr s "1" ||
            containsStr s "able" then "Yes"
    else "No"

/-- Word characters in the sense of the regex \w. -/
def isWordChar (c : Char) : Bool := c.isAlphanum || c == '_'

/-- Split a character list on every case-insensitive occurrence of the
word "and" flanked by word boundaries, the model of
re.split(r"\band\b", p, flags=re.I). -/
def splitAndAux (prev : Option Char) (acc : List Char) : List Char → List (List Char)
  | a :: n :: d :: rest =>
    if a.toLower == 'a' && n.toLower == 'n' && d.toLower == 'd'
        && (match prev with | none => true | some pc => !isWordChar pc)
        && (match rest with | [] => true | x :: _ => !isWordChar x) then
      acc.reverse :: splitAndAux (some d) [] rest
    else splitAndAux (some a) (a :: acc) (n :: d :: rest)
  | c :: rest => splitAndAux (some c) (c :: acc) rest
  | [] => [acc.reverse]

/-- Split a character list at every separator character, the model of
re.split(r"[;,/|]+", s): a run of separators here produces extra empty
components, which the caller filters out, so the result after that
filter coincides with the regex split. -/
def splitSepsAux (isSep : Char → Bool) (acc : List Char) : List Char → List (List Char)
  | [] => [acc.reverse]
  | c :: rest =>
    if isSep c then acc.reverse :: splitSepsAux isSep [] rest
    else splitSepsAux isSep (c :: acc) rest

def ttSep (c : Char) : Bool := c == ';' || c == ',' || c == '/' || c == '|'

/-- Embeds normalize_test_types (src/recommend_api_fixed.py lines 60-84)
on a string value (pandas NaN cannot occur after fillna("")). -/
def normalize_test_types (tt : String) : List String :=
  let s := pyStrip tt
  if s == "" then []
  else
    let parts := splitSepsAux ttSep [] s.data
    let final := parts.foldl
      (fun acc p =>
        acc ++ (((splitAndAux none [] p).map (fun q => pyStrip (String.mk q))).filter
          (fun q => !(q == "")))) []
    (final.foldl
      (fun st p =>
        if lowerStr p ∈ st.1 then st else (st.1 ++ [lowerStr p], st.2 ++ [p]))
      (([], []) : List String × List String)).2

def digitsToNat (ds : List Char) : Nat :=
  ds.foldl (fun n c => 10 * n + (c.toNat - '0'.toNat)) 0

/-- Modelled from the duration parse of build_records
(src/recommend_api_fixed.py lines 102-108): int(float(v)) when v is a
plain (decimal) number, else the first digit run, else 0.  Exact for the
nonnegative integer and decimal strings the catalog contains; Python
float forms such as exponents or negatives are approximated by their
first digit run. -/
def parseDuration (v : String) : Int :=
  let s := pyStrip v
  if s == "" then 0
  else
    match (s.data.dropWhile (fun c => !c.isDigit)).takeWhile Char.isDigit with
    | [] => 0
    | ds => Int.ofNat (digitsToNat ds)

/-- Embeds the per-row normalization of build_records
(src/recommend_api_fixed.py lines 93-123). -/
def buildRecord (row : Row) : ApiRec :=
  let url := pyStrip (row.url.getD "")
  let name := pyStrip (row.name.getD "")
  let short_desc := match row.short_description with | some s => pyStrip s | none => ""
  let full_text := match row.full_text with | some s => pyStrip s | none => ""
  let description := if !(short_desc == "") then short_desc
                     else if !(full_text == "") then full_text else ""
  let durationVal := match row.duration_minutes with | some v => v | none => row.duration.getD ""
  { url := url, name := name,
    adaptive_support := normalize_yes_no (some (row.adaptive_support.getD (row.adaptive.getD ""))),
    description := description,
    duration := parseDuration durationVal,
    remote_support := normalize_yes_no (some (row.remote_support.getD (row.remote.getD ""))),
    test_type := normalize_test_types (row.test_type.getD (row.test_types.getD (row.category.getD ""))) }

/-- Embeds build_records: the record list built from the CSV at startup. -/
def build_records (rows : List Row) : List ApiRec :=
  rows.map buildRecord

/-- The effective result-count bound of the /recommend handler
(src/recommend_api_fixed.py lines 148-152): top_k or 5, then raised to 1,
then capped at 10. -/
def effTopK (topk : Option Int) : Int :=
  let t0 : Int := match topk with | none => 5 | some k => if k = 0 then 5 else k
  let t1 := if t0 < 1 then 1 else t0
  if 10 < t1 then 10 else t1

/-- Stable insertion of an index into a list sorted by descending score. -/
def insertByScore (sims : Nat → Int) (i : Nat) : List Nat → List Nat
  | [] => [i]
  | j :: rest => if sims j < sims i then i :: j :: rest else j :: insertByScore sims i rest

/-- Model of np.argsort(-sims): the indices 0..n-1 sorted by descending
score. -/
def argsortDesc (sims : Nat → Int) (n : Nat) : List Nat :=
  (List.range n).foldr (insertByScore sims) []

def defaultApiRec : ApiRec := ⟨"", "", "No", "", 0, "No", []⟩

deriving instance DecidableEq for Except

/-- Embeds the /recommend handler (src/recommend_api_fixed.py lines
143-187): blank queries fail with HTTP 400; otherwise the top-ranked
records are projected, at most the effective bound many.  When no index
was built (empty record list) the first top_k records are returned. -/
def recommend (rows : List Row) (sims : Nat → Int) (query : String) (topk : Option Int) :
    Except Nat (List ApiRec) :=
  if pyStrip query == "" then Except.error 400
  else if (build_records rows).isEmpty then
    Except.ok ((build_records rows).take (effTopK topk).toNat)
  else
    Except.ok (((argsortDesc sims (build_records rows).length).take (effTopK topk).toNat).map
      (fun i => (build_records rows).getD i defaultApiRec))

/-! ### Crawl-state invariant and run relation -/

def urlsOf (l : List Rec) : List String := l.map (·.url)

/-- The safety invariant every reachable crawl state satisfies: sink URLs
are canonical, pairwise distinct, recorded in seen, same-origin, not PDFs
and not pre-packaged records; seen URLs never match the listing pattern;
product fetches respect the same-origin and PDF filters. -/
structure CrawlInv (st : CrawlState) : Prop where
  sinkSeen : ∀ r ∈ st.sink, r.url ∈ st.seen
  sinkCanon : ∀ r ∈ st.sink, canonicalize r.url = r.url
  sinkDistinct : st.sink.Pairwise (fun a b => a.url ≠ b.url)
  seenNoListing : ∀ u ∈ st.seen, listingPattern u = false
  pfOrigin : ∀ u ∈ st.productFetched, sameOriginOk u = true
  pfNoPdf : ∀ u ∈ st.productFetched, endsWithStr (lowerStr u) ".pdf" = false
  sinkOrigin : ∀ r ∈ st.sink, sameOriginOk r.url = true
  sinkNoPdf : ∀ r ∈ st.sink, endsWithStr (lowerStr r.url) ".pdf" = false
  sinkNoPrepack : ∀ r ∈ st.sink,
    is_prepackaged (combinedText r.name r.category r.shortDesc) = false

/-- Lockstep relation between a first crawl run (s1) with final state F
and a second run (s2) over the same site whose store was preloaded from
F's sink: the frontiers coincide, the second sink never grows beyond F's,
and the second seen set is F's sink URLs plus whatever the first run has
seen so far. -/
structure RunRel (F s1 s2 : CrawlState) : Prop where
  q : s2.queued = s1.queued
  p : s2.processed = s1.processed
  k : s2.sink = F.sink
  st1 : s1.stopped = false
  st2 : s2.stopped = false
  sn : ∀ u : String, u ∈ s2.seen ↔ (u ∈ urlsOf F.sink ∨ u ∈ s1.seen)

/-! ### Concrete fixture sites and pages used by counterexamples and witnesses -/

/-- A listing page on the crawl domain holding one cross-domain anchor
that matches the secondary listing-discovery pattern and one that matches
no pattern at all. -/
def siteCross : Site :=
  [("https://www.shl.com/start",
    ⟨["https://other.example/solutions/x", "https://other.example/x"], "", "", ""⟩),
   ("https://other.example/solutions/x", ⟨[], "", "", ""⟩)]

/-- The three-anchor listing page of the link-classification scenario. -/
def anchorsC5 : List String := ["/solutions/foo", "/blog/2020/post", "mailto:a@b.com"]

def siteC5 : Site :=
  [("https://www.shl.com/catalog", ⟨anchorsC5, "", "", ""⟩),
   ("https://www.shl.com/solutions/foo", ⟨[], "Foo Assessment", "Tests", "A nice assessment"⟩)]

/-- A catalog linking a pre-packaged product page and a normal one; the
normal page links the pre-packaged page a second time. -/
def siteC7 : Site :=
  [("https://www.shl.com/catalog", ⟨["/solutions/pre", "/solutions/foo"], "", "", ""⟩),
   ("https://www.shl.com/solutions/pre", ⟨[], "Pre-Packaged Job Solution: Sales", "", "Bundle"⟩),
   ("https://www.shl.com/solutions/foo",
    ⟨["/solutions/pre"], "Foo Assessment", "Tests", "A nice assessment"⟩)]

/-- A listing page anchoring a same-domain PDF that matches the product
pattern. -/
def siteC9 : Site :=
  [("https://www.shl.com/start", ⟨["https://www.shl.com/solutions/doc.pdf"], "", "", ""⟩),
   ("https://www.shl.com/solutions/doc.pdf", ⟨[], "", "", ""⟩)]

/-- A product page carrying both a meta description and a longer
pattern-matching div. -/
def pageC4 : Forest :=
  .cons (.elem "html" []
    (.cons (.elem "head" []
      (.cons (.elem "meta" [("name", "description"), ("content", "short")] .nil) .nil))
    (.cons (.elem "body" []
      (.cons (.elem "div" [("class", "description")]
        (.cons (.text "a much longer product description text") .nil)) .nil))
    .nil))) .nil

/-- A page holding a script element, an inline handler and a javascript:
href. -/
def pageC6 : Forest :=
  .cons (.elem "body" []
    (.cons (.elem "script" [] (.cons (.text "alert(1)") .nil))
    (.cons (.elem "a" [("onclick", "x()"), ("href", "javascript:evil()"), ("id", "k")]
      (.cons (.text "hi") .nil))
    .nil))) .nil

/-- The sanitized form of pageC6. -/
def pageC6Clean : Forest :=
  .cons (.elem "body" []
    (.cons (.elem "a" [("id", "k")] (.cons (.text "hi") .nil)) .nil)) .nil

/-- Fixture CSV rows for the recommendation service. -/
def rowA : Row :=
  ⟨some "https://x/a", some "Java Test", some "desc", some "full", some "30", none,
   some "yes", none, some "", none, some "Knowledge", none, none⟩

def rowB : Row :=
  ⟨some "https://x/b", some "Sales Test", none, some "ft", none, some "",
   none, some "true", none, none, none, some "P and Q", none⟩

/-! ## Theorems -/

/-! ### Generic helper lemmas -/

theorem dropWhile_dropWhile (p : Char → Bool) (l : List Char) :
    (l.dropWhile p).dropWhile p = l.dropWhile p := by
  induction l with
  | nil => simp
  | cons c t ih =>
    by_cases h : p c = true
    · simp [List.dropWhile_cons, h, ih]
    · simp [List.dropWhile_cons, h]

theorem canonicalize_idem (s : String) : canonicalize (canonicalize s) = canonicalize s := by
  show rstripSlash (stripFrag (rstripSlash (stripFrag s))) = rstripSlash (stripFrag s)
  have hmem : ∀ c ∈ ((s.data.takeWhile (fun c => !(c == '#'))).reverse.dropWhile
      (fun c => c == '/')).reverse, (!(c == '#')) = true := by
    intro c hc
    exact List.mem_takeWhile_imp (p := fun c => !(c == '#'))
      (List.mem_reverse.mp ((List.dropWhile_sublist _).mem (List.mem_reverse.mp hc)))
  unfold stripFrag rstripSlash
  congr 1
  show ((List.takeWhile _ _).reverse.dropWhile _).reverse = _
  rw [List.takeWhile_eq_self_iff.mpr hmem, List.reverse_reverse, dropWhile_dropWhile]


/-! ### Sanitizer invariant (clean_html) -/

theorem cleanAttrs_all (a : List (String × String)) :
    (cleanAttrs a).all
      (fun p => !(p.1 == "href" && jsHref p.2) && !(startsWithStr (lowerStr p.1) "on")) = true := by
  rw [List.all_eq_true]
  intro p hp
  unfold cleanAttrs at hp
  rw [List.mem_filter] at hp
  obtain ⟨hp1, h2⟩ := hp
  rw [List.mem_filter] at hp1
  obtain ⟨_, h1⟩ := hp1
  simp only [h1, h2, Bool.and_self]

theorem sanitizedForest_appendF : ∀ f g : Forest,
    sanitizedForest (appendF f g) = (sanitizedForest f && sanitizedForest g)
  | .nil, g => by simp [appendF, sanitizedForest]
  | .cons h t, g => by
      simp [appendF, sanitizedForest, sanitizedForest_appendF t g, Bool.and_assoc]

mutual
theorem cleanNode_sanitized : ∀ h : Html, sanitizedForest (cleanNode h) = true
  | .text s => by simp [cleanNode, sanitizedForest, sanitizedNode]
  | .elem t a cs => by
      by_cases hbad : t ∈ badTags
      · simp [cleanNode, hbad, sanitizedForest]
      · have hattrs := cleanAttrs_all a
        rw [List.all_eq_true] at hattrs
        simp [cleanNode, hbad, sanitizedForest, sanitizedNode, cleanForest_sanitized cs]
        intro x y hxy
        have h3 := hattrs (x, y) hxy
        simp at h3
        tauto
theorem cleanForest_sanitized : ∀ f : Forest, sanitizedForest (cleanForest f) = true
  | .nil => by simp [cleanForest, sanitizedForest]
  | .cons h rest => by
      simp [cleanForest, sanitizedForest_appendF, cleanNode_sanitized h,
        cleanForest_sanitized rest]
end

/-- Claim C6: for every HTML input, the sanitizer's output contains no
script, style, iframe, noscript or link element, no attribute whose name
case-insensitively starts with "on", and no href value passing the
javascript: test; in particular, for an input holding a script element
and an onclick attribute, the sanitized output holds neither. -/
theorem c6_sanitizer :
    (∀ doc : Forest, sanitizedForest (clean_html doc) = true) ∧
    sanitizedForest pageC6 = false ∧
    clean_html pageC6 = pageC6Clean :=
  ⟨fun doc => cleanForest_sanitized doc, by decide, by decide⟩

/-! ### Description extraction (parse_product_page) -/

/-- Claim C4 counterexample: a page whose meta description is the
non-empty "short" but whose pattern-matching div text is longer gets the
div text as short_description, not the meta content. -/
theorem c4_counterexample :
    metaDescription pageC4 = "short" ∧
    shortDescriptionOf pageC4 = "a much longer product description text" ∧
    shortDescriptionOf pageC4 ≠ metaDescription pageC4 :=
  ⟨by decide, by decide, by decide⟩

/-- Claim C4 (amended): short_description is the longest among the meta
description content and the texts of the first matching div-by-class,
section-by-class and div-by-id elements (earlier candidates win ties);
the meta content is therefore overridden whenever a strictly longer
selector text exists. -/
theorem pickLonger_chain (d0 c1 c2 c3 : String) :
    pickLonger (pickLonger (pickLonger d0 c1) c2) c3 ∈ [d0, c1, c2, c3] ∧
    ∀ s ∈ [d0, c1, c2, c3],
      s.length ≤ (pickLonger (pickLonger (pickLonger d0 c1) c2) c3).length := by
  unfold pickLonger
  constructor
  · split_ifs <;> simp
  · intro s hs
    simp only [List.mem_cons, List.not_mem_nil, or_false] at hs
    rcases hs with rfl | rfl | rfl | rfl <;> split_ifs <;> omega

theorem shortDescription_eq_chain (doc : Forest) :
    shortDescriptionOf doc =
      pickLonger (pickLonger (pickLonger (metaDescription doc)
        ((selDivClass doc).elim "" getTextOf))
        ((selSectionClass doc).elim "" getTextOf))
        ((selDivId doc).elim "" getTextOf) := by
  unfold shortDescriptionOf pickLonger
  rcases selDivClass doc with _ | e1 <;> rcases selSectionClass doc with _ | e2 <;>
    rcases selDivId doc with _ | e3 <;> simp [Option.elim]

theorem c4_short_description_longest (doc : Forest) :
    shortDescriptionOf doc ∈ descCandidates doc ∧
    ∀ s ∈ descCandidates doc, s.length ≤ (shortDescriptionOf doc).length := by
  rw [shortDescription_eq_chain doc]
  exact pickLonger_chain (metaDescription doc) ((selDivClass doc).elim "" getTextOf)
    ((selSectionClass doc).elim "" getTextOf) ((selDivId doc).elim "" getTextOf)

/-- Claim C4 witness: the general theorem applied to the concrete page,
with the meta content as the candidate. -/
theorem c4_witness :
    shortDescriptionOf pageC4 ∈ descCandidates pageC4 ∧
    ("short").length ≤ (shortDescriptionOf pageC4).length :=
  ⟨(c4_short_description_longest pageC4).1,
   (c4_short_description_longest pageC4).2 "short" (by decide)⟩

/-! ### Recommendation service claims -/

theorem normalize_yes_no_cases (v : Option String) :
    normalize_yes_no v = "Yes" ∨ normalize_yes_no v = "No" := by
  rcases v with _ | s
  · right; rfl
  · show (if _ then "No" else if _ then "Yes" else "No") = "Yes" ∨
        (if _ then "No" else if _ then "Yes" else "No") = "No"
    split_ifs <;> simp

theorem build_records_normalized (rows : List Row) :
    ∀ r ∈ build_records rows,
      (r.adaptive_support = "Yes" ∨ r.adaptive_support = "No") ∧
      (r.remote_support = "Yes" ∨ r.remote_support = "No") := by
  intro r hr
  unfold build_records at hr
  rcases List.mem_map.mp hr with ⟨row, _, rfl⟩
  have h1 : (buildRecord row).adaptive_support =
      normalize_yes_no (some (row.adaptive_support.getD (row.adaptive.getD ""))) := rfl
  have h2 : (buildRecord row).remote_support =
      normalize_yes_no (some (row.remote_support.getD (row.remote.getD ""))) := rfl
  rw [h1, h2]
  exact ⟨normalize_yes_no_cases _, normalize_yes_no_cases _⟩

theorem mem_insertByScore (sims : Nat → Int) (i j : Nat) (l : List Nat) :
    j ∈ insertByScore sims i l → j = i ∨ j ∈ l := by
  induction l with
  | nil => intro h; simp [insertByScore] at h; exact Or.inl h
  | cons a t ih =>
    intro h
    unfold insertByScore at h
    split_ifs at h
    · simp only [List.mem_cons] at h ⊢
      tauto
    · simp only [List.mem_cons] at h ⊢
      rcases h with rfl | h
      · tauto
      · rcases ih h with rfl | h2 <;> tauto

theorem mem_argsortAux (sims : Nat → Int) (l : List Nat) (j : Nat) :
    j ∈ l.foldr (insertByScore sims) [] → j ∈ l := by
  induction l with
  | nil => simp
  | cons a t ih =>
    intro h
    simp only [List.foldr_cons] at h
    rcases mem_insertByScore sims a j _ h with rfl | h2
    · simp
    · simp [ih h2]

theorem mem_argsortDesc (sims : Nat → Int) (n j : Nat) (h : j ∈ argsortDesc sims n) : j < n :=
  List.mem_range.mp (mem_argsortAux sims (List.range n) j h)

theorem getD_mem {α : Type} (l : List α) (i : Nat) (d : α) (h : i < l.length) :
    l.getD i d ∈ l := by
  induction l generalizing i with
  | nil => simp at h
  | cons a t ih =>
    cases i with
    | zero => simp
    | succ m =>
      simp only [List.getD_cons_succ, List.mem_cons]
      right
      exact ih m (by simpa using Nat.lt_of_succ_lt_succ h)

theorem recommend_ok_elim (rows : List Row) (sims : Nat → Int) (q : String) (k : Option Int)
    (out : List ApiRec) (hout : recommend rows sims q k = Except.ok out) :
    out.length ≤ (effTopK k).toNat ∧ ∀ r ∈ out, r ∈ build_records rows := by
  unfold recommend at hout
  by_cases hblank : (pyStrip q == "") = true
  · rw [if_pos hblank] at hout
    exact Except.noConfusion hout
  · rw [if_neg hblank] at hout
    by_cases hempty : (build_records rows).isEmpty = true
    · rw [if_pos hempty] at hout
      injection hout with hout
      subst hout
      refine ⟨List.length_take_le _ _, ?_⟩
      intro r hr
      exact (List.take_sublist _ _).mem hr
    · rw [if_neg hempty] at hout
      injection hout with hout
      subst hout
      refine ⟨by rw [List.length_map]; exact List.length_take_le _ _, ?_⟩
      intro r hr
      rcases List.mem_map.mp hr with ⟨i, hi, rfl⟩
      have hlt : i < (build_records rows).length :=
        mem_argsortDesc sims _ i ((List.take_sublist _ _).mem hi)
      exact getD_mem _ i defaultApiRec hlt

/-- Claim C8: for every /recommend request, the effective result-count
bound lies in [1,10] and equals the requested bound whenever that bound
already lies in [1,10]; at most that many records are returned; and every
returned record's adaptive_support and remote_support fields are exactly
"Yes" or "No". -/
theorem c8_recommend_clamp_normalize (rows : List Row) (sims : Nat → Int) (q : String)
    (k : Option Int) (out : List ApiRec) (hout : recommend rows sims q k = Except.ok out) :
    (1 ≤ effTopK k ∧ effTopK k ≤ 10) ∧
    (∀ m : Int, k = some m → 1 ≤ m → m ≤ 10 → effTopK k = m) ∧
    out.length ≤ (effTopK k).toNat ∧
    ∀ r ∈ out, (r.adaptive_support = "Yes" ∨ r.adaptive_support = "No") ∧
               (r.remote_support = "Yes" ∨ r.remote_support = "No") := by
  refine ⟨?_, ?_, (recommend_ok_elim rows sims q k out hout).1, ?_⟩
  · simp only [effTopK]
    rcases k with _ | m
    · simp
    · simp only []
      split_ifs <;> omega
  · intro m hm h1 h10
    subst hm
    simp only [effTopK]
    split_ifs <;> omega
  · intro r hr
    exact build_records_normalized rows r ((recommend_ok_elim rows sims q k out hout).2 r hr)

/-- Claim C8 witness: the theorem applied to a concrete two-row store,
query and bound. -/
theorem c8_witness :
    (1 ≤ effTopK (some 1) ∧ effTopK (some 1) ≤ 10) ∧
    [buildRecord rowB].length ≤ (effTopK (some 1)).toNat ∧
    ((buildRecord rowB).adaptive_support = "Yes" ∨
     (buildRecord rowB).adaptive_support = "No") :=
  have h := c8_recommend_clamp_normalize [rowA, rowB] (fun _ => 0) "q" (some 1)
    [buildRecord rowB] (by decide)
  ⟨h.1, h.2.2.1, (h.2.2.2 (buildRecord rowB) (by simp)).1⟩

/-- Claim C10: a /recommend request whose query is empty or whitespace
fails with HTTP 400 and yields no recommendations; every non-blank query
yields a normal response (the handler does not raise). -/
theorem c10_blank_query_400 (rows : List Row) (sims : Nat → Int) (k : Option Int) (q : String) :
    (pyStrip q = "" → recommend rows sims q k = Except.error 400) ∧
    (pyStrip q ≠ "" → ∃ out, recommend rows sims q k = Except.ok out) := by
  constructor
  · intro h
    unfold recommend
    simp [h]
  · intro h
    unfold recommend
    have hb : (pyStrip q == "") = false := by
      simpa using h
    rw [hb]
    simp only [Bool.false_eq_true, if_false]
    split_ifs <;> exact ⟨_, rfl⟩

/-- Claim C10 witness: the theorem applied to a whitespace query and to a
non-blank query on a concrete store. -/
theorem c10_witness :
    recommend [rowA] (fun _ => 0) " " none = Except.error 400 ∧
    ∃ out, recommend [rowA] (fun _ => 0) "java" none = Except.ok out :=
  ⟨(c10_blank_query_400 [rowA] (fun _ => 0) none " ").1 (by decide),
   (c10_blank_query_400 [rowA] (fun _ => 0) none "java").2 (by decide)⟩

/-! ### Crawl claims: concrete counterexamples and classifications -/

/-- Claim C1 counterexample: an anchor on https://other.example — a
domain outside the crawl's allow-list — that matches the secondary
listing-discovery pattern is enqueued by that pass and subsequently
fetched and processed as a listing page, so cross-domain anchors are not
universally dropped. -/
theorem c1_counterexample :
    sameOriginOk "https://other.example/solutions/x" = false ∧
    "https://other.example/solutions/x" ∈
      (crawlLoop siteCross 0 5 (initState [] "https://www.shl.com/start")).fetched ∧
    "https://other.example/solutions/x" ∈
      (crawlLoop siteCross 0 5 (initState [] "https://www.shl.com/start")).processed ∧
    (crawlLoop siteCross 0 5 (initState [] "https://www.shl.com/start")).stopped = false :=
  ⟨by decide, by decide, by decide, by decide⟩

/-- Claim C5 counterexample: with anchors /solutions/foo, /blog/2020/post
and mailto:a@b.com, the blog link is never queued: the crawl drains its
queue without ever fetching or processing the blog URL, because a /blog/
URL that matches no product pattern is dropped by the link extractor and
matches no secondary-discovery pattern either. -/
theorem c5_counterexample :
    find_product_links_from_catalog anchorsC5 "https://www.shl.com/catalog" =
      ["https://www.shl.com/solutions/foo"] ∧
    "https://www.shl.com/blog/2020/post" ∉
      (crawlLoop siteC5 0 6 (initState [] "https://www.shl.com/catalog")).fetched ∧
    "https://www.shl.com/blog/2020/post" ∉
      (crawlLoop siteC5 0 6 (initState [] "https://www.shl.com/catalog")).processed ∧
    (crawlLoop siteC5 0 6 (initState [] "https://www.shl.com/catalog")).queued = [] ∧
    (crawlLoop siteC5 0 6 (initState [] "https://www.shl.com/catalog")).stopped = false :=
  ⟨by decide, by decide, by decide, by decide, by decide⟩

/-- Claim C5 (amended): exactly one of the three anchors
(/solutions/foo) is classified as a product candidate and is fetched and
persisted as a product; the mailto link and the blog link are both
dropped entirely — neither is ever queued, fetched or processed. -/
theorem c5_link_classification :
    find_product_links_from_catalog anchorsC5 "https://www.shl.com/catalog" =
      ["https://www.shl.com/solutions/foo"] ∧
    "https://www.shl.com/solutions/foo" ∈
      (crawlLoop siteC5 0 6 (initState [] "https://www.shl.com/catalog")).productFetched ∧
    urlsOf (crawlLoop siteC5 0 6 (initState [] "https://www.shl.com/catalog")).sink =
      ["https://www.shl.com/solutions/foo"] ∧
    "mailto:a@b.com" ∉
      (crawlLoop siteC5 0 6 (initState [] "https://www.shl.com/catalog")).fetched ∧
    "https://www.shl.com/blog/2020/post" ∉
      (crawlLoop siteC5 0 6 (initState [] "https://www.shl.com/catalog")).fetched ∧
    (crawlLoop siteC5 0 6 (initState [] "https://www.shl.com/catalog")).queued = [] :=
  ⟨by decide, by decide, by decide, by decide, by decide, by decide⟩

/-- Claim C9 counterexample: a same-domain .pdf URL matching the product
pattern is skipped by the product loop, yet the secondary
listing-discovery pass enqueues it (it contains /solutions/) and the
crawler then fetches it as a listing page — so it is not true that such a
URL is never fetched. -/
theorem c9_counterexample :
    productHrefPattern "https://www.shl.com/solutions/doc.pdf" = true ∧
    endsWithStr (lowerStr (canonicalize "https://www.shl.com/solutions/doc.pdf")) ".pdf" = true ∧
    "https://www.shl.com/solutions/doc.pdf" ∈
      (crawlLoop siteC9 0 5 (initState [] "https://www.shl.com/start")).fetched ∧
    (crawlLoop siteC9 0 5 (initState [] "https://www.shl.com/start")).productFetched = [] ∧
    (crawlLoop siteC9 0 5 (initState [] "https://www.shl.com/start")).sink = [] :=
  ⟨by decide, by decide, by decide, by decide, by decide⟩
theorem CrawlInvCongr {s t : CrawlState} (h : CrawlInv s) (h1 : t.seen = s.seen)
    (h2 : t.sink = s.sink) (h3 : t.productFetched = s.productFetched) : CrawlInv t :=
  ⟨by rw [h2, h1]; exact h.sinkSeen, by rw [h2]; exact h.sinkCanon,
   by rw [h2]; exact h.sinkDistinct, by rw [h1]; exact h.seenNoListing,
   by rw [h3]; exact h.pfOrigin, by rw [h3]; exact h.pfNoPdf,
   by rw [h2]; exact h.sinkOrigin, by rw [h2]; exact h.sinkNoPdf,
   by rw [h2]; exact h.sinkNoPrepack⟩

theorem crawlInv_processLink (site : Site) (mp : Nat) (st : CrawlState) (l : String)
    (h : CrawlInv st) : CrawlInv (processLink site mp st l) := by
  unfold processLink
  dsimp only
  by_cases hstop : st.stopped = true
  · rw [if_pos hstop]; exact h
  · rw [if_neg hstop]
    by_cases hpdf : endsWithStr (lowerStr (canonicalize l)) ".pdf" = true
    · rw [if_pos hpdf]; exact h
    · rw [if_neg hpdf]
      by_cases horig : (!sameOriginOk (canonicalize l)) = true
      · rw [if_pos horig]; exact h
      · rw [if_neg horig]
        have horig2 : sameOriginOk (canonicalize l) = true := by
          simpa using horig
        have hpdf2 : endsWithStr (lowerStr (canonicalize l)) ".pdf" = false := by
          simpa using hpdf
        by_cases hseen : canonicalize l ∈ st.seen
        · rw [if_pos hseen]; exact h
        · rw [if_neg hseen]
          by_cases hlist : listingPattern (canonicalize l) = true
          · rw [if_pos hlist]
            split_ifs <;> first | exact h | exact CrawlInvCongr h rfl rfl rfl
          · rw [if_neg hlist]
            have hlist2 : listingPattern (canonicalize l) = false := by
              simpa using hlist
            have hpf : CrawlInv { st with
                fetched := st.fetched ++ [canonicalize l],
                productFetched := st.productFetched ++ [canonicalize l] } := by
              refine ⟨h.sinkSeen, h.sinkCanon, h.sinkDistinct, h.seenNoListing, ?_, ?_,
                h.sinkOrigin, h.sinkNoPdf, h.sinkNoPrepack⟩
              · intro u hu
                rcases List.mem_append.mp hu with hu | hu
                · exact h.pfOrigin u hu
                · rw [List.mem_singleton] at hu; subst hu; exact horig2
              · intro u hu
                rcases List.mem_append.mp hu with hu | hu
                · exact h.pfNoPdf u hu
                · rw [List.mem_singleton] at hu; subst hu; exact hpdf2
            cases hfetch : fetchSite site (canonicalize l) with
            | none => exact hpf
            | some doc =>
              dsimp only
              by_cases hpre : is_prepackaged (combinedText doc.name doc.category doc.shortDesc) = true
              · rw [if_pos hpre]
                refine ⟨?_, h.sinkCanon, h.sinkDistinct, ?_, hpf.pfOrigin, hpf.pfNoPdf,
                  h.sinkOrigin, h.sinkNoPdf, h.sinkNoPrepack⟩
                · intro r hr
                  exact List.mem_append_left _ (h.sinkSeen r hr)
                · intro u hu
                  rcases List.mem_append.mp hu with hu | hu
                  · exact h.seenNoListing u hu
                  · rw [List.mem_singleton] at hu; subst hu; exact hlist2
              · rw [if_neg hpre]
                have hpre2 : is_prepackaged
                    (combinedText doc.name doc.category doc.shortDesc) = false := by
                  simpa using hpre
                have hbig : CrawlInv { st with
                    fetched := st.fetched ++ [canonicalize l],
                    productFetched := st.productFetched ++ [canonicalize l],
                    sink := st.sink ++ [⟨canonicalize l, doc.name, doc.category, doc.shortDesc⟩],
                    seen := st.seen ++ [canonicalize l],
                    discovered := st.discovered ++ [⟨canonicalize l, doc.name, doc.category, doc.shortDesc⟩] } := by
                  refine ⟨?_, ?_, ?_, ?_, hpf.pfOrigin, hpf.pfNoPdf, ?_, ?_, ?_⟩
                  · intro r hr
                    rcases List.mem_append.mp hr with hr | hr
                    · exact List.mem_append_left _ (h.sinkSeen r hr)
                    · rw [List.mem_singleton] at hr; subst hr
                      exact List.mem_append_right _ (List.mem_singleton.mpr rfl)
                  · intro r hr
                    rcases List.mem_append.mp hr with hr | hr
                    · exact h.sinkCanon r hr
                    · rw [List.mem_singleton] at hr; subst hr
                      exact canonicalize_idem l
                  · rw [List.pairwise_append]
                    refine ⟨h.sinkDistinct, List.pairwise_singleton _ _, ?_⟩
                    intro a ha b hb
                    rw [List.mem_singleton] at hb; subst hb
                    intro heq
                    apply hseen
                    have ha2 : a.url = canonicalize l := heq
                    rw [← ha2]
                    exact h.sinkSeen a ha
                  · intro u hu
                    rcases List.mem_append.mp hu with hu | hu
                    · exact h.seenNoListing u hu
                    · rw [List.mem_singleton] at hu; subst hu; exact hlist2
                  · intro r hr
                    rcases List.mem_append.mp hr with hr | hr
                    · exact h.sinkOrigin r hr
                    · rw [List.mem_singleton] at hr; subst hr; exact horig2
                  · intro r hr
                    rcases List.mem_append.mp hr with hr | hr
                    · exact h.sinkNoPdf r hr
                    · rw [List.mem_singleton] at hr; subst hr; exact hpdf2
                  · intro r hr
                    rcases List.mem_append.mp hr with hr | hr
                    · exact h.sinkNoPrepack r hr
                    · rw [List.mem_singleton] at hr; subst hr; exact hpre2
                split_ifs
                · exact CrawlInvCongr hbig rfl rfl rfl
                · exact hbig
theorem crawlInv_secondaryLink (pageUrl : String) (st : CrawlState) (a : String)
    (h : CrawlInv st) : CrawlInv (secondaryLink pageUrl st a) := by
  unfold secondaryLink
  dsimp only
  split_ifs <;> first | exact h | exact CrawlInvCongr h rfl rfl rfl

theorem crawlInv_foldLinks (site : Site) (mp : Nat) (links : List String) (st : CrawlState)
    (h : CrawlInv st) : CrawlInv (links.foldl (processLink site mp) st) := by
  induction links generalizing st with
  | nil => exact h
  | cons l t ih => exact ih _ (crawlInv_processLink site mp st l h)

theorem crawlInv_foldSecondary (pageUrl : String) (anchors : List String) (st : CrawlState)
    (h : CrawlInv st) : CrawlInv (anchors.foldl (secondaryLink pageUrl) st) := by
  induction anchors generalizing st with
  | nil => exact h
  | cons a t ih => exact ih _ (crawlInv_secondaryLink pageUrl st a h)

theorem crawlInv_processPage (site : Site) (mp : Nat) (pageUrl : String) (doc : Doc)
    (st : CrawlState) (h : CrawlInv st) : CrawlInv (processPage site mp pageUrl doc st) := by
  unfold processPage
  dsimp only
  split_ifs
  · exact crawlInv_foldLinks site mp _ st h
  · exact crawlInv_foldSecondary pageUrl doc.anchors _ (crawlInv_foldLinks site mp _ st h)

theorem crawlInv_crawlLoop (site : Site) (mp fuel : Nat) (st : CrawlState)
    (h : CrawlInv st) : CrawlInv (crawlLoop site mp fuel st) := by
  induction fuel generalizing st with
  | zero => exact h
  | succ f ih =>
    unfold crawlLoop
    by_cases hstop : st.stopped = true
    · rw [if_pos hstop]; exact h
    · rw [if_neg hstop]
      cases hq : st.queued with
      | nil => exact h
      | cons pageUrl rest =>
        dsimp only
        by_cases hproc : pageUrl ∈ st.processed
        · rw [if_pos hproc]
          exact ih _ (CrawlInvCongr h rfl rfl rfl)
        · rw [if_neg hproc]
          cases hfetch : fetchSite site pageUrl with
          | none => exact ih _ (CrawlInvCongr h rfl rfl rfl)
          | some doc =>
            exact ih _ (crawlInv_processPage site mp pageUrl doc _
              (CrawlInvCongr h rfl rfl rfl))

theorem crawlInv_initEmpty (seed : String) : CrawlInv (initState [] seed) := by
  constructor <;> first
    | exact List.Pairwise.nil
    | (intro x hx; simp [initState] at hx)

/-- Claim C1 (amended): cross-domain URLs are never fetched as product
pages and never yield sink records (the product loop's same-origin filter
guarantees this from any invariant state); and the concrete anchor
https://other.example/x, which matches no product or listing pattern, is
never fetched, processed or left enqueued.  (The unamended claim fails
because the secondary listing-discovery pass enqueues cross-domain
listing-pattern anchors, as c1_counterexample shows.) -/
theorem c1_same_origin_products (site : Site) (mp fuel : Nat) (st : CrawlState)
    (h : CrawlInv st) :
    (∀ u ∈ (crawlLoop site mp fuel st).productFetched, sameOriginOk u = true) ∧
    (∀ r ∈ (crawlLoop site mp fuel st).sink, sameOriginOk r.url = true) ∧
    ("https://other.example/x" ∉
        (crawlLoop siteCross 0 5 (initState [] "https://www.shl.com/start")).fetched ∧
     "https://other.example/x" ∉
        (crawlLoop siteCross 0 5 (initState [] "https://www.shl.com/start")).processed ∧
     (crawlLoop siteCross 0 5 (initState [] "https://www.shl.com/start")).queued = []) :=
  ⟨(crawlInv_crawlLoop site mp fuel st h).pfOrigin,
   (crawlInv_crawlLoop site mp fuel st h).sinkOrigin,
   by decide, by decide, by decide⟩

/-- Claim C1 witness: the amended theorem applied to a concrete crawl and
a concrete product fetch. -/
theorem c1_witness :
    sameOriginOk "https://www.shl.com/solutions/foo" = true :=
  (c1_same_origin_products siteC5 0 6 (initState [] "https://www.shl.com/catalog")
      (crawlInv_initEmpty "https://www.shl.com/catalog")).1
    "https://www.shl.com/solutions/foo" (by decide)

/-- Claim C3: from any state satisfying the crawl invariant (in
particular the preloaded initial state of a run over a store this crawler
produced), every reachable state's sink holds records whose URLs are
pairwise distinct after canonicalization; and the two spec URLs
canonicalize to the same key. -/
theorem c3_sink_distinct (site : Site) (mp fuel : Nat) (st : CrawlState) (h : CrawlInv st) :
    ((crawlLoop site mp fuel st).sink.Pairwise
      (fun a b => canonicalize a.url ≠ canonicalize b.url)) ∧
    canonicalize "https://x.com/a/" = canonicalize "https://x.com/a#frag" := by
  constructor
  · have hI := crawlInv_crawlLoop site mp fuel st h
    refine List.Pairwise.imp_of_mem ?_ hI.sinkDistinct
    intro a b ha hb hne
    rw [hI.sinkCanon a ha, hI.sinkCanon b hb]
    exact hne
  · decide

/-- Claim C3 witness: the theorem applied to a concrete crawl producing a
nonempty sink. -/
theorem c3_witness :
    ((crawlLoop siteC7 0 8 (initState [] "https://www.shl.com/catalog")).sink.Pairwise
      (fun a b => canonicalize a.url ≠ canonicalize b.url)) ∧
    canonicalize "https://x.com/a/" = canonicalize "https://x.com/a#frag" :=
  c3_sink_distinct siteC7 0 8 (initState [] "https://www.shl.com/catalog")
    (crawlInv_initEmpty "https://www.shl.com/catalog")

/-- Claim C7: no record whose combined name-category-description text
matches the pre-packaged filter is ever in the sink of a reachable crawl
state; concretely, the product page titled "Pre-Packaged Job Solution:
Sales" is product-fetched (parsed) exactly once even though two pages
link it, never appears in the sink, and its URL is marked seen. -/
theorem c7_prepackaged_rejected (site : Site) (mp fuel : Nat) (st : CrawlState)
    (h : CrawlInv st) :
    (∀ r ∈ (crawlLoop site mp fuel st).sink,
        is_prepackaged (combinedText r.name r.category r.shortDesc) = false) ∧
    is_prepackaged (combinedText "Pre-Packaged Job Solution: Sales" "" "Bundle") = true ∧
    urlsOf (crawlLoop siteC7 0 8 (initState [] "https://www.shl.com/catalog")).sink =
      ["https://www.shl.com/solutions/foo"] ∧
    "https://www.shl.com/solutions/pre" ∈
      (crawlLoop siteC7 0 8 (initState [] "https://www.shl.com/catalog")).seen ∧
    (crawlLoop siteC7 0 8 (initState [] "https://www.shl.com/catalog")).productFetched =
      ["https://www.shl.com/solutions/pre", "https://www.shl.com/solutions/foo"] ∧
    (crawlLoop siteC7 0 8 (initState [] "https://www.shl.com/catalog")).queued = [] :=
  ⟨(crawlInv_crawlLoop site mp fuel st h).sinkNoPrepack,
   by decide, by decide, by decide, by decide, by decide⟩

/-- Claim C7 witness: the theorem applied to the record the concrete
crawl actually persisted. -/
theorem c7_witness :
    is_prepackaged (combinedText "Foo Assessment" "Tests" "A nice assessment") = false :=
  have h := c7_prepackaged_rejected siteC7 0 8 (initState [] "https://www.shl.com/catalog")
    (crawlInv_initEmpty "https://www.shl.com/catalog")
  h.1 ⟨"https://www.shl.com/solutions/foo", "Foo Assessment", "Tests", "A nice assessment"⟩
    (by decide)

/-- Claim C9 (amended): no URL whose canonical form ends in .pdf
(case-insensitively) is ever fetched as a product page, and no sink
record carries such a URL — the .pdf filter protects product extraction
and the record store.  (The unamended claim fails because the secondary
pass can still fetch such a URL as a listing page, as c9_counterexample
shows.) -/
theorem c9_pdf_filter (site : Site) (mp fuel : Nat) (st : CrawlState) (h : CrawlInv st) :
    (∀ u ∈ (crawlLoop site mp fuel st).productFetched,
        endsWithStr (lowerStr u) ".pdf" = false) ∧
    (∀ r ∈ (crawlLoop site mp fuel st).sink,
        endsWithStr (lowerStr r.url) ".pdf" = false) :=
  ⟨(crawlInv_crawlLoop site mp fuel st h).pfNoPdf,
   (crawlInv_crawlLoop site mp fuel st h).sinkNoPdf⟩

/-- Claim C9 witness: the amended theorem applied to a concrete crawl and
a concrete product fetch. -/
theorem c9_witness :
    endsWithStr (lowerStr "https://www.shl.com/solutions/foo") ".pdf" = false :=
  (c9_pdf_filter siteC5 0 6 (initState [] "https://www.shl.com/catalog")
      (crawlInv_initEmpty "https://www.shl.com/catalog")).1
    "https://www.shl.com/solutions/foo" (by decide)
theorem processLink_sink_mono (site : Site) (mp : Nat) (st : CrawlState) (l : String) :
    ∃ t, (processLink site mp st l).sink = st.sink ++ t := by
  unfold processLink
  dsimp only
  repeat' split
  all_goals first
    | exact ⟨_, rfl⟩
    | exact ⟨[], by simp⟩

theorem foldLinks_sink_mono (site : Site) (mp : Nat) (links : List String) (st : CrawlState) :
    ∃ t, (links.foldl (processLink site mp) st).sink = st.sink ++ t := by
  induction links generalizing st with
  | nil => exact ⟨[], by simp⟩
  | cons l rest ih =>
    simp only [List.foldl_cons]
    obtain ⟨t1, h1⟩ := processLink_sink_mono site mp st l
    obtain ⟨t2, h2⟩ := ih (processLink site mp st l)
    exact ⟨t1 ++ t2, by rw [h2, h1, List.append_assoc]⟩

theorem secondaryLink_sink (pageUrl : String) (st : CrawlState) (a : String) :
    (secondaryLink pageUrl st a).sink = st.sink := by
  unfold secondaryLink
  dsimp only
  repeat' split
  all_goals rfl

theorem foldSecondary_sink (pageUrl : String) (anchors : List String) (st : CrawlState) :
    (anchors.foldl (secondaryLink pageUrl) st).sink = st.sink := by
  induction anchors generalizing st with
  | nil => rfl
  | cons a rest ih =>
    simp only [List.foldl_cons]
    rw [ih, secondaryLink_sink]

theorem processPage_sink_eq (site : Site) (mp : Nat) (pageUrl : String) (doc : Doc)
    (st : CrawlState) :
    (processPage site mp pageUrl doc st).sink =
      ((find_product_links_from_catalog doc.anchors pageUrl).foldl
        (processLink site mp) st).sink := by
  unfold processPage
  dsimp only
  split_ifs
  · rfl
  · rw [foldSecondary_sink]

theorem crawlLoop_sink_mono (site : Site) (mp fuel : Nat) (st : CrawlState) :
    ∃ t, (crawlLoop site mp fuel st).sink = st.sink ++ t := by
  induction fuel generalizing st with
  | zero => exact ⟨[], by simp [crawlLoop]⟩
  | succ f ih =>
    unfold crawlLoop
    by_cases hstop : st.stopped = true
    · rw [if_pos hstop]; exact ⟨[], by simp⟩
    · rw [if_neg hstop]
      rcases hq : st.queued with _ | ⟨pageUrl, rest⟩
      · exact ⟨[], by simp⟩
      · dsimp only
        by_cases hproc : pageUrl ∈ st.processed
        · rw [if_pos hproc]; exact ih _
        · rw [if_neg hproc]
          cases hfetch : fetchSite site pageUrl with
          | none => exact ih _
          | some doc =>
            obtain ⟨t1, h1⟩ := ih (processPage site mp pageUrl doc
              { st with queued := rest,
                        fetched := st.fetched ++ [pageUrl],
                        processed := st.processed ++ [pageUrl] })
            obtain ⟨t2, h2⟩ := foldLinks_sink_mono site mp
              (find_product_links_from_catalog doc.anchors pageUrl)
              { st with queued := rest,
                        fetched := st.fetched ++ [pageUrl],
                        processed := st.processed ++ [pageUrl] }
            refine ⟨t2 ++ t1, ?_⟩
            rw [h1, processPage_sink_eq, h2]
            simp [List.append_assoc]
theorem processLink_seen_mono (site : Site) (mp : Nat) (st : CrawlState) (l : String) :
    ∃ t, (processLink site mp st l).seen = st.seen ++ t := by
  unfold processLink
  dsimp only
  repeat' split
  all_goals first
    | exact ⟨_, rfl⟩
    | exact ⟨[], by simp⟩

theorem processLink_stopped0 (site : Site) (st : CrawlState) (l : String) :
    (processLink site 0 st l).stopped = st.stopped := by
  unfold processLink
  dsimp only
  repeat' split
  all_goals first
    | rfl
    | simp_all

theorem processLink_pf_fresh (site : Site) (mp : Nat) (st : CrawlState) (l : String) :
    ∀ u ∈ (processLink site mp st l).productFetched,
      u ∈ st.productFetched ∨ u ∉ st.seen := by
  unfold processLink
  dsimp only
  repeat' split
  all_goals intro u hu
  all_goals first
    | exact Or.inl hu
    | (rcases List.mem_append.mp hu with hu | hu
       · exact Or.inl hu
       · rw [List.mem_singleton] at hu
         subst hu
         right
         assumption)

theorem secondaryLink_seen (pageUrl : String) (st : CrawlState) (a : String) :
    (secondaryLink pageUrl st a).seen = st.seen := by
  unfold secondaryLink
  dsimp only
  repeat' split
  all_goals rfl

theorem secondaryLink_pf (pageUrl : String) (st : CrawlState) (a : String) :
    (secondaryLink pageUrl st a).productFetched = st.productFetched := by
  unfold secondaryLink
  dsimp only
  repeat' split
  all_goals rfl

theorem secondaryLink_stopped (pageUrl : String) (st : CrawlState) (a : String) :
    (secondaryLink pageUrl st a).stopped = st.stopped := by
  unfold secondaryLink
  dsimp only
  repeat' split
  all_goals rfl

theorem foldSecondary_seen (pageUrl : String) (anchors : List String) (st : CrawlState) :
    (anchors.foldl (secondaryLink pageUrl) st).seen = st.seen := by
  induction anchors generalizing st with
  | nil => rfl
  | cons a rest ih => simp only [List.foldl_cons]; rw [ih, secondaryLink_seen]

theorem foldSecondary_pf (pageUrl : String) (anchors : List String) (st : CrawlState) :
    (anchors.foldl (secondaryLink pageUrl) st).productFetched = st.productFetched := by
  induction anchors generalizing st with
  | nil => rfl
  | cons a rest ih => simp only [List.foldl_cons]; rw [ih, secondaryLink_pf]

theorem foldSecondary_stopped (pageUrl : String) (anchors : List String) (st : CrawlState) :
    (anchors.foldl (secondaryLink pageUrl) st).stopped = st.stopped := by
  induction anchors generalizing st with
  | nil => rfl
  | cons a rest ih => simp only [List.foldl_cons]; rw [ih, secondaryLink_stopped]

theorem foldLinks_seen_mono (site : Site) (mp : Nat) (links : List String) (st : CrawlState) :
    ∃ t, (links.foldl (processLink site mp) st).seen = st.seen ++ t := by
  induction links generalizing st with
  | nil => exact ⟨[], by simp⟩
  | cons l rest ih =>
    simp only [List.foldl_cons]
    obtain ⟨t1, h1⟩ := processLink_seen_mono site mp st l
    obtain ⟨t2, h2⟩ := ih (processLink site mp st l)
    exact ⟨t1 ++ t2, by rw [h2, h1, List.append_assoc]⟩

theorem foldLinks_stopped0 (site : Site) (links : List String) (st : CrawlState) :
    (links.foldl (processLink site 0) st).stopped = st.stopped := by
  induction links generalizing st with
  | nil => rfl
  | cons l rest ih =>
    simp only [List.foldl_cons]
    rw [ih, processLink_stopped0]

theorem foldLinks_pf_fresh (site : Site) (mp : Nat) (links : List String) (st : CrawlState) :
    ∀ u ∈ (links.foldl (processLink site mp) st).productFetched,
      u ∈ st.productFetched ∨ u ∉ st.seen := by
  induction links generalizing st with
  | nil => exact fun u hu => Or.inl hu
  | cons l rest ih =>
    intro u hu
    simp only [List.foldl_cons] at hu
    rcases ih (processLink site mp st l) u hu with h | h
    · exact processLink_pf_fresh site mp st l u h
    · right
      intro hus
      obtain ⟨t, ht⟩ := processLink_seen_mono site mp st l
      exact h (ht ▸ List.mem_append_left t hus)

theorem processPage_seen_eq (site : Site) (mp : Nat) (pageUrl : String) (doc : Doc)
    (st : CrawlState) :
    (processPage site mp pageUrl doc st).seen =
      ((find_product_links_from_catalog doc.anchors pageUrl).foldl
        (processLink site mp) st).seen := by
  unfold processPage
  dsimp only
  split_ifs
  · rfl
  · rw [foldSecondary_seen]

theorem processPage_pf_eq (site : Site) (mp : Nat) (pageUrl : String) (doc : Doc)
    (st : CrawlState) :
    (processPage site mp pageUrl doc st).productFetched =
      ((find_product_links_from_catalog doc.anchors pageUrl).foldl
        (processLink site mp) st).productFetched := by
  unfold processPage
  dsimp only
  split_ifs
  · rfl
  · rw [foldSecondary_pf]

theorem processPage_stopped0 (site : Site) (pageUrl : String) (doc : Doc) (st : CrawlState) :
    (processPage site 0 pageUrl doc st).stopped = st.stopped := by
  unfold processPage
  dsimp only
  split_ifs
  · rw [foldLinks_stopped0]
  · rw [foldSecondary_stopped, foldLinks_stopped0]

theorem crawlLoop_pf_fresh (site : Site) (mp fuel : Nat) (st : CrawlState) :
    ∀ u ∈ (crawlLoop site mp fuel st).productFetched,
      u ∈ st.productFetched ∨ u ∉ st.seen := by
  induction fuel generalizing st with
  | zero => exact fun u hu => Or.inl hu
  | succ f ih =>
    intro u hu
    unfold crawlLoop at hu
    by_cases hstop : st.stopped = true
    · rw [if_pos hstop] at hu; exact Or.inl hu
    · rw [if_neg hstop] at hu
      rcases hq : st.queued with _ | ⟨pageUrl, rest⟩
      · rw [hq] at hu; exact Or.inl hu
      · rw [hq] at hu
        dsimp only at hu
        by_cases hproc : pageUrl ∈ st.processed
        · rw [if_pos hproc] at hu
          exact ih { st with queued := rest } u hu
        · rw [if_neg hproc] at hu
          cases hfetch : fetchSite site pageUrl with
          | none =>
            rw [hfetch] at hu
            exact ih { st with queued := rest, fetched := st.fetched ++ [pageUrl] } u hu
          | some doc =>
            rw [hfetch] at hu
            rcases ih (processPage site mp pageUrl doc
                { st with queued := rest,
                          fetched := st.fetched ++ [pageUrl],
                          processed := st.processed ++ [pageUrl] }) u hu with h | h
            · rw [processPage_pf_eq] at h
              exact foldLinks_pf_fresh site mp _
                { st with queued := rest,
                          fetched := st.fetched ++ [pageUrl],
                          processed := st.processed ++ [pageUrl] } u h
            · right
              intro hus
              apply h
              rw [processPage_seen_eq]
              obtain ⟨t, ht⟩ := foldLinks_seen_mono site mp
                (find_product_links_from_catalog doc.anchors pageUrl)
                { st with queued := rest,
                          fetched := st.fetched ++ [pageUrl],
                          processed := st.processed ++ [pageUrl] }
              rw [ht]
              exact List.mem_append_left t hus
theorem runRel_processLink (site : Site) (F s1 s2 : CrawlState) (l : String)
    (hF : ∀ u ∈ urlsOf F.sink, listingPattern u = false)
    (hrel : RunRel F s1 s2)
    (hpre : ∃ t, F.sink = (processLink site 0 s1 l).sink ++ t) :
    RunRel F (processLink site 0 s1 l) (processLink site 0 s2 l) := by
  have hq := hrel.q; have hp := hrel.p; have hk := hrel.k
  have hst1 := hrel.st1; have hst2 := hrel.st2; have hsn := hrel.sn
  unfold processLink at hpre ⊢
  dsimp only at hpre ⊢
  rw [if_neg (show ¬s1.stopped = true by simp [hst1])] at hpre ⊢
  rw [if_neg (show ¬s2.stopped = true by simp [hst2])]
  by_cases hpdf : endsWithStr (lowerStr (canonicalize l)) ".pdf" = true
  · rw [if_pos hpdf, if_pos hpdf]
    exact ⟨hq, hp, hk, hst1, hst2, hsn⟩
  · rw [if_neg hpdf] at hpre
    rw [if_neg hpdf, if_neg hpdf]
    by_cases horig : (!sameOriginOk (canonicalize l)) = true
    · rw [if_pos horig, if_pos horig]
      exact ⟨hq, hp, hk, hst1, hst2, hsn⟩
    · rw [if_neg horig] at hpre
      rw [if_neg horig, if_neg horig]
      by_cases h2 : canonicalize l ∈ s2.seen
      · rw [if_pos h2]
        by_cases h1 : canonicalize l ∈ s1.seen
        · rw [if_pos h1]
          exact ⟨hq, hp, hk, hst1, hst2, hsn⟩
        · rw [if_neg h1] at hpre ⊢
          have hmemF : canonicalize l ∈ urlsOf F.sink := by
            rcases (hsn (canonicalize l)).mp h2 with h | h
            · exact h
            · exact absurd h h1
          have hlist : listingPattern (canonicalize l) = false := hF _ hmemF
          rw [if_neg (show ¬listingPattern (canonicalize l) = true by simp [hlist])] at hpre ⊢
          cases hfetch : fetchSite site (canonicalize l) with
          | none =>
            exact ⟨hq, hp, hk, hst1, hst2, hsn⟩
          | some doc =>
            rw [hfetch] at hpre
            dsimp only at hpre ⊢
            by_cases hprep :
                is_prepackaged (combinedText doc.name doc.category doc.shortDesc) = true
            · rw [if_pos hprep]
              refine ⟨hq, hp, hk, hst1, hst2, ?_⟩
              intro u
              simp only [List.mem_append, List.mem_singleton, hsn u]
              constructor
              · rintro (h | h)
                · exact Or.inl h
                · exact Or.inr (Or.inl h)
              · rintro (h | h | rfl)
                · exact Or.inl h
                · exact Or.inr h
                · exact Or.inl hmemF
            · rw [if_neg hprep]
              split_ifs with hc
              · exact absurd rfl hc.1
              · refine ⟨hq, hp, hk, hst1, hst2, ?_⟩
                intro u
                simp only [List.mem_append, List.mem_singleton, hsn u]
                constructor
                · rintro (h | h)
                  · exact Or.inl h
                  · exact Or.inr (Or.inl h)
                · rintro (h | h | rfl)
                  · exact Or.inl h
                  · exact Or.inr h
                  · exact Or.inl hmemF
      · have h1 : canonicalize l ∉ s1.seen := fun hx => h2 ((hsn _).mpr (Or.inr hx))
        have hnF : canonicalize l ∉ urlsOf F.sink := fun hx => h2 ((hsn _).mpr (Or.inl hx))
        rw [if_neg h1] at hpre ⊢
        rw [if_neg h2]
        by_cases hlist : listingPattern (canonicalize l) = true
        · rw [if_pos hlist] at hpre ⊢
          rw [if_pos hlist]
          by_cases hcond : canonicalize l ∉ s1.queued ∧ canonicalize l ∉ s1.processed
          · rw [if_pos hcond]
            rw [if_pos (show canonicalize l ∉ s2.queued ∧ canonicalize l ∉ s2.processed by
              rw [hq, hp]; exact hcond)]
            refine ⟨?_, hp, hk, hst1, hst2, hsn⟩
            dsimp only
            rw [hq]
          · rw [if_neg hcond]
            rw [if_neg (show ¬(canonicalize l ∉ s2.queued ∧ canonicalize l ∉ s2.processed) by
              rw [hq, hp]; exact hcond)]
            exact ⟨hq, hp, hk, hst1, hst2, hsn⟩
        · rw [if_neg hlist] at hpre ⊢
          rw [if_neg hlist]
          cases hfetch : fetchSite site (canonicalize l) with
          | none =>
            exact ⟨hq, hp, hk, hst1, hst2, hsn⟩
          | some doc =>
            rw [hfetch] at hpre
            dsimp only at hpre ⊢
            by_cases hprep :
                is_prepackaged (combinedText doc.name doc.category doc.shortDesc) = true
            · rw [if_pos hprep, if_pos hprep]
              refine ⟨hq, hp, hk, hst1, hst2, ?_⟩
              intro u
              simp only [List.mem_append, List.mem_singleton, hsn u]
              tauto
            · exfalso
              rw [if_neg hprep] at hpre
              split_ifs at hpre
              all_goals
                obtain ⟨t, ht⟩ := hpre
                apply hnF
                rw [ht]
                unfold urlsOf
                refine List.mem_map.mpr
                  ⟨⟨canonicalize l, doc.name, doc.category, doc.shortDesc⟩, ?_, rfl⟩
                simp
theorem runRel_foldLinks (site : Site) (F : CrawlState) (links : List String)
    (s1 s2 : CrawlState)
    (hF : ∀ u ∈ urlsOf F.sink, listingPattern u = false)
    (hrel : RunRel F s1 s2)
    (hpre : ∃ t, F.sink = (links.foldl (processLink site 0) s1).sink ++ t) :
    RunRel F (links.foldl (processLink site 0) s1) (links.foldl (processLink site 0) s2) := by
  induction links generalizing s1 s2 with
  | nil => exact hrel
  | cons l rest ih =>
    simp only [List.foldl_cons] at hpre ⊢
    have hpre1 : ∃ t, F.sink = (processLink site 0 s1 l).sink ++ t := by
      obtain ⟨t, ht⟩ := hpre
      obtain ⟨t2, ht2⟩ := foldLinks_sink_mono site 0 rest (processLink site 0 s1 l)
      exact ⟨t2 ++ t, by rw [ht, ht2, List.append_assoc]⟩
    exact ih _ _ (runRel_processLink site F s1 s2 l hF hrel hpre1) hpre

theorem runRel_secondaryLink (F : CrawlState) (pageUrl : String) (s1 s2 : CrawlState)
    (a : String) (hrel : RunRel F s1 s2) :
    RunRel F (secondaryLink pageUrl s1 a) (secondaryLink pageUrl s2 a) := by
  have hq := hrel.q; have hp := hrel.p; have hk := hrel.k
  have hst1 := hrel.st1; have hst2 := hrel.st2; have hsn := hrel.sn
  unfold secondaryLink
  dsimp only
  by_cases hm : (startsWithStr (pyStrip a) "mailto:" || startsWithStr (pyStrip a) "tel:") = true
  · rw [if_pos hm, if_pos hm]
    exact hrel
  · rw [if_neg hm, if_neg hm]
    by_cases hin : urljoin pageUrl (pyStrip a) ∈ s1.processed ∨
        urljoin pageUrl (pyStrip a) ∈ s1.queued
    · rw [if_pos hin]
      rw [if_pos (show urljoin pageUrl (pyStrip a) ∈ s2.processed ∨
          urljoin pageUrl (pyStrip a) ∈ s2.queued by rw [hq, hp]; exact hin)]
      exact hrel
    · rw [if_neg hin]
      rw [if_neg (show ¬(urljoin pageUrl (pyStrip a) ∈ s2.processed ∨
          urljoin pageUrl (pyStrip a) ∈ s2.queued) by rw [hq, hp]; exact hin)]
      by_cases hsp : secondaryPattern (urljoin pageUrl (pyStrip a)) = true
      · rw [if_pos hsp, if_pos hsp]
        refine ⟨?_, hp, hk, hst1, hst2, hsn⟩
        dsimp only
        rw [hq]
      · rw [if_neg hsp, if_neg hsp]
        exact hrel

theorem runRel_foldSecondary (F : CrawlState) (pageUrl : String) (anchors : List String)
    (s1 s2 : CrawlState) (hrel : RunRel F s1 s2) :
    RunRel F (anchors.foldl (secondaryLink pageUrl) s1)
      (anchors.foldl (secondaryLink pageUrl) s2) := by
  induction anchors generalizing s1 s2 with
  | nil => exact hrel
  | cons a rest ih =>
    simp only [List.foldl_cons]
    exact ih _ _ (runRel_secondaryLink F pageUrl s1 s2 a hrel)

theorem runRel_processPage (site : Site) (F : CrawlState) (pageUrl : String) (doc : Doc)
    (s1 s2 : CrawlState)
    (hF : ∀ u ∈ urlsOf F.sink, listingPattern u = false)
    (hrel : RunRel F s1 s2)
    (hpre : ∃ t, F.sink = (processPage site 0 pageUrl doc s1).sink ++ t) :
    RunRel F (processPage site 0 pageUrl doc s1) (processPage site 0 pageUrl doc s2) := by
  have hpreF : ∃ t, F.sink =
      ((find_product_links_from_catalog doc.anchors pageUrl).foldl
        (processLink site 0) s1).sink ++ t := by
    obtain ⟨t, ht⟩ := hpre
    rw [processPage_sink_eq] at ht
    exact ⟨t, ht⟩
  have hfold := runRel_foldLinks site F (find_product_links_from_catalog doc.anchors pageUrl)
    s1 s2 hF hrel hpreF
  unfold processPage
  dsimp only
  rw [if_neg (show ¬((find_product_links_from_catalog doc.anchors pageUrl).foldl
      (processLink site 0) s1).stopped = true by simp [hfold.st1])]
  rw [if_neg (show ¬((find_product_links_from_catalog doc.anchors pageUrl).foldl
      (processLink site 0) s2).stopped = true by simp [hfold.st2])]
  exact runRel_foldSecondary F pageUrl doc.anchors _ _ hfold

theorem runRel_crawlLoop (site : Site) (F : CrawlState) (fuel : Nat) (s1 s2 : CrawlState)
    (hF : ∀ u ∈ urlsOf F.sink, listingPattern u = false)
    (hrel : RunRel F s1 s2)
    (heq : crawlLoop site 0 fuel s1 = F) :
    (crawlLoop site 0 fuel s2).sink = F.sink := by
  induction fuel generalizing s1 s2 with
  | zero => exact hrel.k
  | succ f ih =>
    unfold crawlLoop at heq ⊢
    rw [if_neg (show ¬s1.stopped = true by simp [hrel.st1])] at heq
    rw [if_neg (show ¬s2.stopped = true by simp [hrel.st2])]
    have hq2 := hrel.q
    rcases hq : s1.queued with _ | ⟨pageUrl, rest⟩
    · rw [hq] at hq2
      rw [hq2]
      exact hrel.k
    · rw [hq] at heq hq2
      rw [hq2]
      dsimp only at heq ⊢
      by_cases hproc : pageUrl ∈ s1.processed
      · rw [if_pos hproc] at heq
        rw [if_pos (show pageUrl ∈ s2.processed by rw [hrel.p]; exact hproc)]
        exact ih { s1 with queued := rest } { s2 with queued := rest }
          ⟨rfl, hrel.p, hrel.k, hrel.st1, hrel.st2, hrel.sn⟩ heq
      · rw [if_neg hproc] at heq
        rw [if_neg (show pageUrl ∉ s2.processed by rw [hrel.p]; exact hproc)]
        cases hfetch : fetchSite site pageUrl with
        | none =>
          rw [hfetch] at heq
          dsimp only at heq ⊢
          exact ih { s1 with queued := rest, fetched := s1.fetched ++ [pageUrl] }
            { s2 with queued := rest, fetched := s2.fetched ++ [pageUrl] }
            ⟨rfl, hrel.p, hrel.k, hrel.st1, hrel.st2, hrel.sn⟩ heq
        | some doc =>
          rw [hfetch] at heq
          dsimp only at heq ⊢
          have hmid : RunRel F
              { s1 with queued := rest, fetched := s1.fetched ++ [pageUrl],
                        processed := s1.processed ++ [pageUrl] }
              { s2 with queued := rest, fetched := s2.fetched ++ [pageUrl],
                        processed := s2.processed ++ [pageUrl] } := by
            refine ⟨rfl, ?_, hrel.k, hrel.st1, hrel.st2, hrel.sn⟩
            dsimp only
            rw [hrel.p]
          have hpre : ∃ t, F.sink = (processPage site 0 pageUrl doc
              { s1 with queued := rest, fetched := s1.fetched ++ [pageUrl],
                        processed := s1.processed ++ [pageUrl] }).sink ++ t := by
            obtain ⟨t, ht⟩ := crawlLoop_sink_mono site 0 f (processPage site 0 pageUrl doc
              { s1 with queued := rest, fetched := s1.fetched ++ [pageUrl],
                        processed := s1.processed ++ [pageUrl] })
            exact ⟨t, by rw [← heq, ht]⟩
          exact ih (processPage site 0 pageUrl doc
              { s1 with queued := rest, fetched := s1.fetched ++ [pageUrl],
                        processed := s1.processed ++ [pageUrl] })
            (processPage site 0 pageUrl doc
              { s2 with queued := rest, fetched := s2.fetched ++ [pageUrl],
                        processed := s2.processed ++ [pageUrl] })
            (runRel_processPage site F pageUrl doc _ _ hF hmid hpre) heq

/-- Claim C2: running the crawl a second time against the same site with
the store produced by the first run appends zero new records: the
preloaded seen set is exactly the store's URLs, the second run's sink
equals the first run's sink, and no URL of the preloaded seen set is
ever fetched as a product page in the second run. -/
theorem c2_idempotent_rerun (site : Site) (seed : String) (fuel : Nat) :
    (initState (crawlLoop site 0 fuel (initState [] seed)).sink seed).seen =
      urlsOf (crawlLoop site 0 fuel (initState [] seed)).sink ∧
    (crawlLoop site 0 fuel
        (initState (crawlLoop site 0 fuel (initState [] seed)).sink seed)).sink =
      (crawlLoop site 0 fuel (initState [] seed)).sink ∧
    ∀ u ∈ (initState (crawlLoop site 0 fuel (initState [] seed)).sink seed).seen,
      u ∉ (crawlLoop site 0 fuel
          (initState (crawlLoop site 0 fuel (initState [] seed)).sink seed)).productFetched := by
  have hInv := crawlInv_crawlLoop site 0 fuel (initState [] seed) (crawlInv_initEmpty seed)
  have hFgood : ∀ u ∈ urlsOf (crawlLoop site 0 fuel (initState [] seed)).sink,
      listingPattern u = false := by
    intro u hu
    rcases List.mem_map.mp hu with ⟨r, hr, rfl⟩
    exact hInv.seenNoListing _ (hInv.sinkSeen r hr)
  refine ⟨rfl, ?_, ?_⟩
  · refine runRel_crawlLoop site _ fuel (initState [] seed) _ hFgood ?_ rfl
    refine ⟨rfl, rfl, rfl, rfl, rfl, ?_⟩
    intro u
    simp [initState, urlsOf]
  · intro u hu hupf
    rcases crawlLoop_pf_fresh site 0 fuel _ u hupf with h | h
    · simp [initState] at h
    · exact h hu

/-- Claim C2 witness: the theorem applied to a concrete site whose first
run persists one record; that record's URL is preloaded into seen and is
never product-fetched again. -/
theorem c2_witness :
    "https://www.shl.com/solutions/foo" ∈
      (initState (crawlLoop siteC7 0 8 (initState [] "https://www.shl.com/catalog")).sink
        "https://www.shl.com/catalog").seen ∧
    "https://www.shl.com/solutions/foo" ∉
      (crawlLoop siteC7 0 8
        (initState (crawlLoop siteC7 0 8 (initState [] "https://www.shl.com/catalog")).sink
          "https://www.shl.com/catalog")).productFetched :=
  ⟨by decide, (c2_idempotent_rerun siteC7 "https://www.shl.com/catalog" 8).2.2
    "https://www.shl.com/solutions/foo" (by decide)⟩
